import Mathlib

/-! Verification of the GoShark packet data model, format parsers and session
tracker.  Each Go function relevant to the checked properties is embedded as
an executable Lean definition; Go `map[string]T` values are represented as
association lists with distinct keys, Go `nil`-able slices as `Option (List _)`,
Go `int` as `Int`, and Go errors as `Except String _` / `Option _`.
Strings are Lean `String`; Go compares strings byte-wise over UTF-8, which
coincides with code-point order, so Lean's `String` order is faithful.
-/

/-! Section: Generic string helpers used throughout the Go sources -/

/-- Whether the char list `s` starts with `sub` (Go `strings.HasPrefix` on runes). -/
def startsWithL : List Char → List Char → Bool
  | _, [] => true
  | [], _ :: _ => false
  | a :: as, b :: bs => a == b && startsWithL as bs

/-- Whether `sub` occurs contiguously inside `s`. -/
def containsL : List Char → List Char → Bool
  | s, sub =>
    if startsWithL s sub then true
    else
      match s with
      | [] => false
      | _ :: t => containsL t sub

/-- Go `strings.Contains`. -/
def strContains (s sub : String) : Bool := containsL s.toList sub.toList

/-- Lower-casing of a string, char by char. -/
def toLowerStr (s : String) : String := ⟨s.toList.map Char.toLower⟩

/-- Go `strings.EqualFold`; faithful on ASCII letters, which is all the
repository compares. -/
def equalFold (a b : String) : Bool := toLowerStr a == toLowerStr b

/-- One fuel-counted step list for replacing every occurrence of `pat` by
`rep`; the fuel is only a structural-recursion device, sized so that it
never runs out. -/
def replaceFuel (pat rep : List Char) : Nat → List Char → List Char
  | _, [] => []
  | 0, s => s
  | fuel + 1, c :: rest =>
    if pat ≠ [] ∧ startsWithL (c :: rest) pat then
      rep ++ replaceFuel pat rep fuel ((c :: rest).drop pat.length)
    else c :: replaceFuel pat rep fuel rest

/-- Go `strings.ReplaceAll` (for the non-empty patterns the sources use). -/
def goReplaceAll (s pat rep : String) : String :=
  ⟨replaceFuel pat.toList rep.toList s.toList.length s.toList⟩

/-- Go `strings.HasPrefix`. -/
def goStartsWith (s pre : String) : Bool := startsWithL s.toList pre.toList

/-- Go `strings.TrimPrefix`: drop `pre` when `s` starts with it. -/
def goTrimPrefixStr (s pre : String) : String :=
  if goStartsWith s pre then ⟨s.toList.drop pre.toList.length⟩ else s

/-- Go `strings.Compare`, expressed through the lexicographic order on
`String` (`-1/0/1` rendered as `Ordering`). -/
def goCompare (a b : String) : Ordering :=
  if a < b then .lt else if b < a then .gt else .eq

/-- Decimal digit of a char, if any. -/
def decDigit (c : Char) : Option Nat :=
  if '0' ≤ c ∧ c ≤ '9' then some (c.toNat - '0'.toNat) else none

/-- Parse a non-empty run of decimal digits. -/
def decDigitsVal : List Char → Option Nat
  | [] => none
  | cs =>
    cs.foldl
      (fun acc c =>
        match acc, decDigit c with
        | some n, some d => some (n * 10 + d)
        | _, _ => none)
      (some 0)

/-- Go `strconv.Atoi` as used with its error ignored: invalid input yields the
zero value `0`. -/
def goAtoi (s : String) : Int :=
  match s.toList with
  | '+' :: rest => (decDigitsVal rest).getD 0
  | '-' :: rest => match decDigitsVal rest with
    | some n => -(n : Int)
    | none => 0
  | cs => (decDigitsVal cs).getD 0

/-- Go `strconv.Atoi` with its error surfaced. -/
def goAtoiE (s : String) : Except String Int :=
  match s.toList with
  | '+' :: rest => match decDigitsVal rest with
    | some n => .ok (n : Int)
    | none => .error "invalid decimal syntax"
  | '-' :: rest => match decDigitsVal rest with
    | some n => .ok (-(n : Int))
    | none => .error "invalid decimal syntax"
  | cs => match decDigitsVal cs with
    | some n => .ok (n : Int)
    | none => .error "invalid decimal syntax"

/-- Hex digit value of a char, if any. -/
def hexDigit (c : Char) : Option Nat :=
  if '0' ≤ c ∧ c ≤ '9' then some (c.toNat - '0'.toNat)
  else if 'a' ≤ c ∧ c ≤ 'f' then some (c.toNat - 'a'.toNat + 10)
  else if 'A' ≤ c ∧ c ≤ 'F' then some (c.toNat - 'A'.toNat + 10)
  else none

/-- Go `hex.DecodeString` on a char list: bytes from hex-digit pairs; an odd
length or a non-hex char is an error. -/
def hexDecodeL : List Char → Except String (List Nat)
  | [] => .ok []
  | [_] => .error "odd length hex string"
  | a :: b :: rest =>
    match hexDigit a, hexDigit b with
    | some ha, some hb =>
      match hexDecodeL rest with
      | .ok bs => .ok ((ha * 16 + hb) :: bs)
      | .error e => .error e
    | _, _ => .error "invalid byte in hex string"

/-- Go `hex.DecodeString`. -/
def hexDecode (s : String) : Except String (List Nat) := hexDecodeL s.toList

/-- Insert a string into a sorted list (helper for `sort.Strings`). -/
def insertStr (x : String) : List String → List String
  | [] => [x]
  | y :: ys => if x < y then x :: y :: ys else y :: insertStr x ys

/-- Go `sort.Strings`: ascending lexicographic sort. -/
def sortStrings : List String → List String
  | [] => []
  | x :: xs => insertStr x (sortStrings xs)

/-! Section: packet/fields.go : LayerField and LayerFieldsContainer -/

/-- Go `LayerField` holds all data about a field of a layer (packet/fields.go). -/
structure LayerField where
  Name : String
  Showname : String
  RawValue : String
  Show : String
  Hide : Bool
  Pos : String
  Size : String
  Unmaskedvalue : String
deriving DecidableEq, Repr

/-- Go `NewLayerField` (packet/fields.go); the Go parameter `show` is spelled
`showv` because `show` is a Lean keyword, and `hide` is the string flag
`"yes"`. -/
def NewLayerField (name showname value showv hide pos size unmaskedvalue : String) :
    LayerField :=
  { Name := name, Showname := showname, RawValue := value, Show := showv,
    Hide := hide == "yes", Pos := pos, Size := size,
    Unmaskedvalue := unmaskedvalue }

/-- Go `LayerField.GetDefaultValue` (packet/fields.go lines 41-53). -/
def LayerField.GetDefaultValue (f : LayerField) : String :=
  if f.Show ≠ "" then f.Show
  else if f.RawValue ≠ "" then f.RawValue
  else if f.Showname ≠ "" then f.Showname
  else ""

/-- Go `LayerField.GetBinaryValue`: hex-decode `RawValue`, left-padding odd
lengths with a zero. -/
def LayerField.GetBinaryValue (f : LayerField) : Except String (List Nat) :=
  let strRawValue := if f.RawValue.toList.length % 2 == 1 then "0" ++ f.RawValue else f.RawValue
  hexDecode strRawValue

/-- Go `LayerField.GetIntValue`: decimal parse of `RawValue`. -/
def LayerField.GetIntValue (f : LayerField) : Except String Int :=
  goAtoiE f.RawValue

/-- Parse hex digits (no sign) into a value; `none` when empty or invalid. -/
def hexDigitsVal : List Char → Option Nat
  | [] => none
  | cs =>
    cs.foldl
      (fun acc c =>
        match acc, hexDigit c with
        | some n, some d => some (n * 16 + d)
        | _, _ => none)
      (some 0)

/-- Go `strconv.ParseInt(s, 16, 64)`: optional sign, hex digits, 64-bit range
check. -/
def goParseInt16 (s : String) : Except String Int :=
  let core : List Char → Option Int := fun cs =>
    match cs with
    | '+' :: rest => (hexDigitsVal rest).map (fun n => (n : Int))
    | '-' :: rest => (hexDigitsVal rest).map (fun n => -(n : Int))
    | _ => (hexDigitsVal cs).map (fun n => (n : Int))
  match core s.toList with
  | none => .error "invalid hex syntax"
  | some v =>
    if v > (2 ^ 63 - 1 : Int) ∨ v < (-(2 ^ 63) : Int) then .error "value out of range"
    else .ok v

/-- Go `LayerField.GetHexValue`: base-16 parse of `RawValue` after stripping an
optional `0x`. -/
def LayerField.GetHexValue (f : LayerField) : Except String Int :=
  goParseInt16 (goTrimPrefixStr f.RawValue "0x")

/-- Go `LayerField.String` returns the default value. -/
def LayerField.toStr (f : LayerField) : String := f.GetDefaultValue

/-- Go `LayerFieldsContainer` (packet/fields.go): one or more same-named fields. -/
structure LayerFieldsContainer where
  Fields : List LayerField
deriving DecidableEq, Repr

/-- Go `NewLayerFieldsContainer`. -/
def NewLayerFieldsContainer (mainField : LayerField) : LayerFieldsContainer :=
  ⟨[mainField]⟩

/-- Go `LayerFieldsContainer.AddField`: append preserving order. -/
def LayerFieldsContainer.AddField (c : LayerFieldsContainer) (f : LayerField) :
    LayerFieldsContainer :=
  ⟨c.Fields ++ [f]⟩

/-- Go `LayerFieldsContainer.GetMainField`: first field, `nil` when empty. -/
def LayerFieldsContainer.GetMainField (c : LayerFieldsContainer) : Option LayerField :=
  match c.Fields with
  | [] => none
  | f :: _ => some f

/-- Go `LayerFieldsContainer.GetAllFields`. -/
def LayerFieldsContainer.GetAllFields (c : LayerFieldsContainer) : List LayerField :=
  c.Fields

/-- Go `LayerFieldsContainer.String`. -/
def LayerFieldsContainer.toStr (c : LayerFieldsContainer) : String :=
  match c.GetMainField with
  | some f => f.GetDefaultValue
  | none => ""

/-- Go `LayerFieldsContainer.GetDefaultValue`. -/
def LayerFieldsContainer.GetDefaultValue (c : LayerFieldsContainer) : String :=
  match c.GetMainField with
  | some f => f.GetDefaultValue
  | none => ""

/-- Go `LayerFieldsContainer.GetBinaryValue`. -/
def LayerFieldsContainer.GetBinaryValue (c : LayerFieldsContainer) :
    Except String (List Nat) :=
  match c.GetMainField with
  | some f => f.GetBinaryValue
  | none => .error "no fields in container"

/-- Go `LayerFieldsContainer.GetIntValue`. -/
def LayerFieldsContainer.GetIntValue (c : LayerFieldsContainer) : Except String Int :=
  match c.GetMainField with
  | some f => f.GetIntValue
  | none => .error "no fields in container"

/-- Go `LayerFieldsContainer.GetHexValue`. -/
def LayerFieldsContainer.GetHexValue (c : LayerFieldsContainer) : Except String Int :=
  match c.GetMainField with
  | some f => f.GetHexValue
  | none => .error "no fields in container"


/-! Section: A universe for decoded JSON values (Go `interface{}` after
`encoding/json` decoding).  Numbers are modelled as integers: no claim in
this development touches a fractional JSON number. -/

inductive JValue where
  | null
  | bool (b : Bool)
  | str (s : String)
  | num (n : Int)
  | arr (elems : List JValue)
  | obj (fields : List (String × JValue))

/-- Go map lookup on an association list (keys are distinct, insertion
order is kept as the iteration order of the model). -/
def assocGet {α : Type} : List (String × α) → String → Option α
  | [], _ => none
  | (k, v) :: rest, key => if k == key then some v else assocGet rest key

/-- Go map assignment `m[k] = v`: replace in place or append. -/
def assocSet {α : Type} : List (String × α) → String → α → List (String × α)
  | [], key, v => [(key, v)]
  | (k, w) :: rest, key, v =>
    if k == key then (k, v) :: rest else (k, w) :: assocSet rest key v

/-- In-place modification of an existing entry. -/
def assocModify {α : Type} : List (String × α) → String → (α → α) → List (String × α)
  | [], _, _ => []
  | (k, w) :: rest, key, g =>
    if k == key then (k, g w) :: rest else (k, w) :: assocModify rest key g

/-- Go `fmt.Sprintf("%v", x)` on a decoded JSON value.  Faithful on strings,
booleans and `nil`, the only shapes any checked property formats; composite
values get an abbreviated rendering. -/
def goFormat : JValue → String
  | .null => "<nil>"
  | .bool b => if b then "true" else "false"
  | .str s => s
  | .num n => toString n
  | .arr _ => "[...]"
  | .obj _ => "map[...]"

/-! Section: packet/packet.go : FieldOffset, Layer, Packet -/

/-- Go `FieldOffset` (packet/packet.go lines 13-19). -/
structure FieldOffset where
  Start : Int
  Length : Int
  Name : String
  Showname : String

/-- Go `Layer` (packet/packet.go lines 29-36). -/
structure Layer where
  Name : String
  Fields : List (String × JValue)
  Offsets : List (String × FieldOffset)
  Pos : Int
  Len : Int

/-- Go `Layer.GetField`: plain map lookup (a stored JSON `null` is the Go
`nil` interface). -/
def Layer.GetField (l : Layer) (name : String) : Option JValue :=
  assocGet l.Fields name

/-- Go `Layer.GetFieldOffset` (packet/packet.go lines 86-89). -/
def Layer.GetFieldOffset (l : Layer) (name : String) : Option FieldOffset :=
  assocGet l.Offsets name

/-- Go `Layer.HasField`. -/
def Layer.HasField (l : Layer) (name : String) : Bool :=
  (assocGet l.Fields name).isSome

/-- Go `Packet` (packet/packet.go lines 123-148) restricted to the fields the
parsing pipeline populates. -/
structure Packet where
  FrameNumber : String
  FrameLen : String
  FrameCapLen : String
  FrameTimeEpoch : String
  FrameTime : String
  RawData : Option (List Nat)
  Layers : List Layer

/-- Go `Packet.GetLayer`: first layer whose name matches exactly. -/
def Packet.GetLayer (p : Packet) (name : String) : Option Layer :=
  p.Layers.find? (fun l => l.Name == name)

/-- Go `Packet.HasLayer`. -/
def Packet.HasLayer (p : Packet) (name : String) : Bool :=
  (p.GetLayer name).isSome

/-- Go `Packet.HighestLayer`: name of the last layer, or empty. -/
def Packet.HighestLayer (p : Packet) : String :=
  match p.Layers.getLast? with
  | some l => l.Name
  | none => ""

/-- Go `Packet.TransportLayer`: first of tcp/udp/sctp/dccp present. -/
def Packet.TransportLayer (p : Packet) : String :=
  match ["tcp", "udp", "sctp", "dccp"].find? (fun n => p.HasLayer n) with
  | some n => n
  | none => ""

/-- Go `Packet.GetLayerRawBytes` (packet/packet.go lines 371-385).  The Go
slice expression `RawData[Pos : Pos+Len]` is `(drop Pos).take Len`. -/
def Packet.GetLayerRawBytes (p : Packet) (layerName : String) : Option (List Nat) :=
  match p.GetLayer layerName, p.RawData with
  | some l, some raw =>
    if l.Pos < 0 ∨ l.Len ≤ 0 then none
    else if (l.Pos + l.Len : Int) > (raw.length : Int) then none
    else some ((raw.drop l.Pos.toNat).take l.Len.toNat)
  | _, _ => none

/-- Go `Packet.GetFieldRawBytes` (packet/packet.go lines 387-406). -/
def Packet.GetFieldRawBytes (p : Packet) (layerName fieldName : String) :
    Option (List Nat) :=
  match p.GetLayer layerName, p.RawData with
  | some l, some raw =>
    match l.GetFieldOffset fieldName with
    | none => none
    | some fo =>
      if fo.Start < 0 ∨ fo.Length ≤ 0 then none
      else if (fo.Start + fo.Length : Int) > (raw.length : Int) then none
      else some ((raw.drop fo.Start.toNat).take fo.Length.toNat)
  | _, _ => none

/-! Section: packet/session.go : SessionKey and the TCP state machine -/

/-- Go `SessionKey` (packet/session.go lines 9-16). -/
structure SessionKey where
  Protocol : String
  SrcIP : String
  DstIP : String
  SrcPort : String
  DstPort : String
deriving DecidableEq, Repr

/-- Go `SessionKey.String`. -/
def SessionKey.toStr (k : SessionKey) : String :=
  k.Protocol ++ ":" ++ k.SrcIP ++ ":" ++ k.SrcPort ++ "-" ++ k.DstIP ++ ":" ++ k.DstPort

/-- Go `SessionKey.Normalized` (packet/session.go lines 23-58). -/
def SessionKey.Normalized (k : SessionKey) : SessionKey :=
  if k.Protocol = "tcp" ∨ k.Protocol = "udp" then
    match goCompare k.SrcIP k.DstIP with
    | .gt => ⟨k.Protocol, k.DstIP, k.SrcIP, k.DstPort, k.SrcPort⟩
    | .eq =>
      match goCompare k.SrcPort k.DstPort with
      | .gt => ⟨k.Protocol, k.DstIP, k.SrcIP, k.DstPort, k.SrcPort⟩
      | _ => k
    | .lt => k
  else k

/-- Go `Session.updateTCPState` (packet/session.go lines 105-137), as the state
transformation it performs on `Session.State` given the TCP layer. -/
def updateTCPState (state : String) (tcpLayer : Layer) : String :=
  match assocGet tcpLayer.Fields "tcp.flags" with
  | none => state
  | some flags =>
    let flagsStr := goFormat flags
    if strContains flagsStr "SYN" && !strContains flagsStr "ACK" then "syn_sent"
    else if strContains flagsStr "SYN" && strContains flagsStr "ACK" then "syn_received"
    else if strContains flagsStr "ACK" && state == "syn_received" then "established"
    else if strContains flagsStr "FIN" then
      if state == "fin_wait_1" || state == "fin_wait_2" then "closing" else "fin_wait_1"
    else if strContains flagsStr "RST" then "closed"
    else state


/-! Section: packet/packet.go : Packet.UnmarshalJSON (lines 151-275)

The embedding starts from the decoded `_source.layers` object (an
association list of layer name to decoded JSON value), which is what the
auxiliary struct of `UnmarshalJSON` extracts before any layer processing.
`none` is the error return of the Go method. -/

/-- An element of the `frame.offset` list in the auxiliary frame struct:
`struct{ Pos, Showname, Size, Value string }` with lowercase JSON tags. -/
structure OffsetEntry where
  Pos : String
  Showname : String
  Size : String
  Value : String

/-- Go `encoding/json` decoding of a `string` struct field stored under key
`k`: absent or JSON `null` leaves the zero value, a JSON string is taken,
any other shape is a decode error. -/
def decodeStrField (m : List (String × JValue)) (k : String) : Option String :=
  match assocGet m k with
  | none => some ""
  | some .null => some ""
  | some (.str s) => some s
  | some _ => none

/-- Decoding of one `frame.offset` element. -/
def decodeOffsetEntry : JValue → Option OffsetEntry
  | .obj m => do
    let pos ← decodeStrField m "pos"
    let showname ← decodeStrField m "showname"
    let size ← decodeStrField m "size"
    let value ← decodeStrField m "value"
    some ⟨pos, showname, size, value⟩
  | .null => some ⟨"", "", "", ""⟩
  | _ => none

/-- Decoding of the `frame.offset` list (`null` is Go's nil slice). -/
def decodeOffsetList : JValue → Option (List OffsetEntry)
  | .null => some []
  | .arr xs => xs.mapM decodeOffsetEntry
  | _ => none

/-- Decoding of one element of a `[]struct{ Value string }` metadata list;
the untagged `Value` field matches its JSON key case-insensitively. -/
def decodeValueEntry : JValue → Option String
  | .obj m =>
    match m.find? (fun kv => equalFold kv.1 "Value") with
    | none => some ""
    | some (_, .str s) => some s
    | some (_, .null) => some ""
    | some _ => none
  | .null => some ""
  | _ => none

/-- Decoding of a `[]struct{ Value string }` metadata list. -/
def decodeValueList : JValue → Option (List String)
  | .null => some []
  | .arr xs => xs.mapM decodeValueEntry
  | _ => none

/-- Decoding of an optional `[]struct{ Value string }` struct field. -/
def decodeValueListField (m : List (String × JValue)) (k : String) :
    Option (List String) :=
  match assocGet m k with
  | none => some []
  | some v => decodeValueList v

/-- The auxiliary struct `UnmarshalJSON` decodes the `frame` blob into. -/
structure FrameAux where
  FrameNumber : List String
  FrameLen : List String
  FrameCapLen : List String
  FrameTimeEpoch : List String
  FrameTime : List String
  FrameOffset : List OffsetEntry

/-- Decoding of the whole auxiliary frame struct; `none` is the
`json.Unmarshal` error the code tests with `err == nil`. -/
def decodeFrameAux : JValue → Option FrameAux
  | .obj m => do
    let number ← decodeValueListField m "frame.number"
    let len ← decodeValueListField m "frame.len"
    let caplen ← decodeValueListField m "frame.cap_len"
    let timeEpoch ← decodeValueListField m "frame.time_epoch"
    let time ← decodeValueListField m "frame.time"
    let offset ←
      match assocGet m "frame.offset" with
      | none => some []
      | some v => decodeOffsetList v
    some ⟨number, len, caplen, timeEpoch, time, offset⟩
  | .null => some ⟨[], [], [], [], [], []⟩
  | _ => none

/-- Decoding of the `frame_raw` blob into `struct{ Value string }` with tag
`json:"value"`. -/
def decodeFrameRawValue : JValue → Option String
  | .obj m => decodeStrField m "value"
  | .null => some ""
  | _ => none

/-- Go `json.Unmarshal` of a layer blob into `map[string]interface{}` with the
error ignored: a non-object leaves the map `nil`. -/
def genericFields : JValue → List (String × JValue)
  | .obj m => m
  | _ => []

/-- Go `json.Unmarshal` of a layer blob into `map[string]interface{}` with the
error surfaced: non-objects other than `null` abort the decode. -/
def decodeLayerFields : JValue → Option (List (String × JValue))
  | .obj m => some m
  | .null => some []
  | _ => none

/-- The sorted non-`frame` layer pass of `UnmarshalJSON` (lines 256-272):
collect every layer name except `frame`, sort lexicographically, and decode
each blob into a generic field map; a decode failure aborts the whole
unmarshal. -/
def restLayers (srcLayers : List (String × JValue)) : Option (List Layer) :=
  let names := sortStrings ((srcLayers.map Prod.fst).filter (fun n => n ≠ "frame"))
  names.mapM (fun n =>
    match assocGet srcLayers n with
    | some v => (decodeLayerFields v).map
        (fun fs => ({ Name := n, Fields := fs, Offsets := [], Pos := 0, Len := 0 } : Layer))
    | none => none)

/-- The `frame_raw` pass of `UnmarshalJSON` (lines 173-185): on a decodable
non-empty value, strip `:` separators and hex-decode into the raw buffer. -/
def decodeRawData (srcLayers : List (String × JValue)) : Option (List Nat) :=
  match assocGet srcLayers "frame_raw" with
  | none => none
  | some v =>
    match decodeFrameRawValue v with
    | none => none
    | some hexStr =>
      if hexStr = "" then none
      else
        match hexDecode (goReplaceAll hexStr ":" "") with
        | .ok bs => some bs
        | .error _ => none

/-- Go `Packet.UnmarshalJSON` from the decoded `_source.layers` object
(lines 170-274): frame handling first — including the early `return nil`
taken when the decoded `frame.offset` list is non-empty — then the sorted
non-frame layers. -/
def unmarshalPacketLayers (srcLayers : List (String × JValue)) : Option Packet :=
  let rawData := decodeRawData srcLayers
  match assocGet srcLayers "frame" with
  | some frameRaw =>
    match decodeFrameAux frameRaw with
    | some aux =>
      let fn := aux.FrameNumber.headD ""
      let fl := aux.FrameLen.headD ""
      let fcl := aux.FrameCapLen.headD ""
      let fte := aux.FrameTimeEpoch.headD ""
      let ft := aux.FrameTime.headD ""
      match aux.FrameOffset with
      | [] =>
        match restLayers srcLayers with
        | some rest =>
          some ⟨fn, fl, fcl, fte, ft, rawData,
            { Name := "frame", Fields := genericFields frameRaw, Offsets := [],
              Pos := 0, Len := 0 } :: rest⟩
        | none => none
      | _ :: _ =>
        let offsets := aux.FrameOffset.foldl
          (fun m e => assocSet m "frame.offset"
            ⟨goAtoi e.Pos, goAtoi e.Size, "frame.offset", e.Showname⟩) []
        some ⟨fn, fl, fcl, fte, ft, rawData,
          [{ Name := "frame", Fields := genericFields frameRaw, Offsets := offsets,
             Pos := 0, Len := 0 }]⟩
    | none =>
      match restLayers srcLayers with
      | some rest =>
        some ⟨"", "", "", "", "", rawData,
          { Name := "frame", Fields := genericFields frameRaw, Offsets := [],
            Pos := 0, Len := 0 } :: rest⟩
      | none => none
  | none =>
    match restLayers srcLayers with
    | some rest => some ⟨"", "", "", "", "", rawData, rest⟩
    | none => none

/-! Section: packet/layers : the polymorphic layer variants (Go package `layers`) -/

namespace layers

/-- The `layers` package's own `LayerField` placeholder (layers/base-adjacent
declaration in xml_layer.go lines 15-21). -/
structure LayerField where
  Name : String
  Showname : String
  RawValue : String
deriving DecidableEq, Repr

/-- The `layers` package's own `LayerFieldsContainer` (xml_layer.go lines
9-13). -/
structure LayerFieldsContainer where
  Fields : List LayerField
deriving DecidableEq, Repr

/-- Go `NewLayerFieldsContainer` (xml_layer.go lines 23-28). -/
def NewLayerFieldsContainer (mainField : LayerField) : LayerFieldsContainer :=
  ⟨[mainField]⟩

/-- Go `LayerFieldsContainer.AddField` (xml_layer.go lines 30-33). -/
def LayerFieldsContainer.AddField (c : LayerFieldsContainer) (f : LayerField) :
    LayerFieldsContainer :=
  ⟨c.Fields ++ [f]⟩

/-- Go `LayerFieldsContainer.GetMainField`. -/
def LayerFieldsContainer.GetMainField (c : LayerFieldsContainer) : Option LayerField :=
  match c.Fields with
  | [] => none
  | f :: _ => some f

/-- Go `LayerFieldsContainer.GetDefaultValue` (xml_layer.go lines 48-55): this
variant returns the main field's `RawValue`. -/
def LayerFieldsContainer.GetDefaultValue (c : LayerFieldsContainer) : String :=
  match c.GetMainField with
  | some f => f.RawValue
  | none => ""

/-- Go `SanitizeFieldName` (json_layer.go lines 9-16, package level): trim the
given prefix, then replace `.` and `-` with `_`. -/
def SanitizeFieldName (fieldName pre : String) : String :=
  goReplaceAll (goReplaceAll (goTrimPrefixStr fieldName pre) "." "_") "-" "_"

/-- Go `XMLLayer` (xml_layer.go lines 57-62). -/
structure XMLLayer where
  LayerName : String
  RawMode : Bool
  AllFields : List (String × LayerFieldsContainer)
deriving DecidableEq, Repr

/-- Go `XMLLayer.getFieldPrefix` (xml_layer.go lines 202-208). -/
def XMLLayer.getFieldPrefixStr (l : XMLLayer) : String :=
  if l.LayerName = "geninfo" then "" else l.LayerName ++ "."

/-- Go `XMLLayer.sanitizeFieldName` (xml_layer.go lines 193-200): trim the
layer's prefix and replace `.`/`-` with `_`. -/
def XMLLayer.sanitizeFieldName (l : XMLLayer) (fieldName : String) : String :=
  goReplaceAll (goReplaceAll (goTrimPrefixStr fieldName l.getFieldPrefixStr) "." "_") "-" "_"

/-- Result universe of `XMLLayer.GetField` (`interface{}` in Go): a field
container, or its bare default string in raw mode. -/
inductive XMLFieldResult where
  | cont (c : LayerFieldsContainer)
  | strVal (s : String)
deriving DecidableEq, Repr

/-- Go `XMLLayer.GetField` (xml_layer.go lines 89-111): direct map hit first,
then a scan comparing sanitized names with `==`.  The scan order is the
model's association-list order (Go iterates the map in unspecified order). -/
def XMLLayer.GetField (l : XMLLayer) (name : String) : Option XMLFieldResult :=
  match assocGet l.AllFields name with
  | some c => some (if l.RawMode then .strVal c.GetDefaultValue else .cont c)
  | none =>
    let sanitizedName := l.sanitizeFieldName name
    match l.AllFields.find? (fun kv => l.sanitizeFieldName kv.1 == sanitizedName) with
    | some kv => some (if l.RawMode then .strVal kv.2.GetDefaultValue else .cont kv.2)
    | none => none

/-- Go `XMLLayer.AddField` (xml_layer.go lines 74-87): append to the container
under the field's name, or create a fresh container (map insertion is
modelled as appending to the association list). -/
def XMLLayer.AddField (l : XMLLayer) (f : LayerField) : XMLLayer :=
  match assocGet l.AllFields f.Name with
  | some _ =>
    { l with AllFields := assocModify l.AllFields f.Name (fun c => c.AddField f) }
  | none => { l with AllFields := l.AllFields ++ [(f.Name, ⟨[f]⟩)] }

/-- Go `XMLLayer.FieldNames` (xml_layer.go lines 136-143). -/
def XMLLayer.FieldNames (l : XMLLayer) : List String :=
  l.AllFields.map (fun kv => l.sanitizeFieldName kv.1)

/-- Go `JSONLayer` (json_layer.go lines 24-33) restricted to the storage the
checked lookup path reads; the memoized `WrappedFields` cache only avoids
recomputation and is not modelled. -/
structure JSONLayer where
  LayerName : String
  FullName : String
  Fields : List (String × JValue)

/-- The file-local `sanitizeFieldName` of json_layer.go (lines 261-269):
strip the `layerName + "."` prefix, nothing else. -/
def sanitizeFieldName (fieldName layerName : String) : String :=
  let pre := layerName ++ "."
  if goStartsWith fieldName pre then ⟨fieldName.toList.drop pre.toList.length⟩
  else fieldName

/-- Go `JSONLayer.getInternalFieldByName` (json_layer.go lines 238-259): direct
match, then `FullName + "." + name`, then a case-insensitive scan over the
sanitized keys. -/
def JSONLayer.getInternalFieldByName (l : JSONLayer) (name : String) : Option JValue :=
  match assocGet l.Fields name with
  | some v => some v
  | none =>
    match assocGet l.Fields (l.FullName ++ "." ++ name) with
    | some v => some v
    | none =>
      match l.Fields.find? (fun kv => equalFold (sanitizeFieldName kv.1 l.FullName) name) with
      | some kv => some kv.2
      | none => none

/-- Result universe of `EKLayer.GetField`: a plain value or an
`EKMultiField` wrapper (whose containing layer is the queried layer and
whose `Value` is `null` for Go's `nil`). -/
inductive EKFieldResult where
  | val (v : JValue)
  | multiField (name : String) (value : JValue)

/-- Go `EKLayer` (ek layer source lines 16-19). -/
structure EKLayer where
  LayerName : String
  FieldsDict : List (String × JValue)

/-- Go `EKLayer.getFieldValue` (lines 124-130): the stored value as is
(`CastFieldValue` is the identity in this source); `null` models the `nil`
interface. -/
def EKLayer.getFieldValue (l : EKLayer) (fullFieldName : String) : JValue :=
  match assocGet l.FieldsDict fullFieldName with
  | some v => v
  | none => .null

/-- Go `EKLayer.fieldHasSubfields` (lines 154-161). -/
def EKLayer.fieldHasSubfields (l : EKLayer) (fieldEKName : String) : Bool :=
  l.FieldsDict.any (fun kv => goStartsWith kv.1 (fieldEKName ++ "_"))

/-- Go `EKLayer.getPossibleLayerPrefixes` (lines 163-184). -/
def EKLayer.getPossibleLayerPrefixes (l : EKLayer) : List String :=
  l.LayerName ::
    (match l.LayerName with
     | "ip" => ["ip_src", "ip_dst"]
     | "tcp" => ["tcp_srcport", "tcp_dstport"]
     | "udp" => ["udp_srcport", "udp_dstport"]
     | "http" => ["http_request", "http_response"]
     | "dns" => ["dns_query", "dns_response"]
     | _ => [])

/-- Go `EKLayer.getNestedField` (lines 132-151); returning the stored `null`
value is returning Go's `nil`, i.e. no result.  The second branch's scan is
the same test as `fieldHasSubfields`. -/
def EKLayer.getNestedField (l : EKLayer) (pre name : String) : Option EKFieldResult :=
  let fieldEKName := pre ++ "_" ++ name
  match assocGet l.FieldsDict fieldEKName with
  | some _ =>
    if l.fieldHasSubfields fieldEKName then
      some (.multiField name (l.getFieldValue fieldEKName))
    else
      match l.getFieldValue fieldEKName with
      | .null => none
      | .bool b => some (.val (.bool b))
      | .str s => some (.val (.str s))
      | .num n => some (.val (.num n))
      | .arr xs => some (.val (.arr xs))
      | .obj fs => some (.val (.obj fs))
  | none =>
    if l.fieldHasSubfields fieldEKName then some (.multiField name .null)
    else none

/-- Go `EKLayer.GetField` (lines 32-51): dots become underscores, then a direct
hit, then the prefix-candidate scan. -/
def EKLayer.GetField (l : EKLayer) (name0 : String) : Option EKFieldResult :=
  let name := goReplaceAll name0 "." "_"
  match assocGet l.FieldsDict name with
  | some .null => none
  | some (.bool b) => some (.val (.bool b))
  | some (.str s) => some (.val (.str s))
  | some (.num n) => some (.val (.num n))
  | some (.arr xs) => some (.val (.arr xs))
  | some (.obj fs) => some (.val (.obj fs))
  | none => l.getPossibleLayerPrefixes.findSome? (fun pre => l.getNestedField pre name)

/-- Go `EKLayer.HasField` (lines 53-56). -/
def EKLayer.HasField (l : EKLayer) (name : String) : Bool :=
  (l.GetField name).isSome

end layers

/-! Section: tshark XML (PDML) parser : convertPDMLField / convertPDMLProto -/

/-- Go `PDMLField` (tshark xml parser lines 60-70); the Go field `Show` is
spelled `Shw` because `show` is a Lean keyword. -/
inductive PDMLField where
  | mk (name showname value shw pos size : String) (fields : List PDMLField)

mutual

/-- Go `XMLParser.convertPDMLField` (tshark xml parser lines 138-189) acting on
the layer's field map: the `show` value wins over `value`; nested fields
are converted into a fresh map and merged under the parent's name; a plain
map assignment stores scalar fields, so a repeated name overwrites.  The
`IncludeRaw` tail adds `_pos`/`_size` entries when `Atoi` succeeds. -/
def convertPDMLField (includeRaw : Bool) (acc : List (String × JValue)) :
    PDMLField → List (String × JValue)
  | .mk name _showname value shw pos size nested =>
    let v := if shw ≠ "" then shw else value
    let acc1 :=
      match nested with
      | [] => assocSet acc name (.str v)
      | _ :: _ =>
        let nestedInit := if v ≠ "" then [("_value", JValue.str v)] else []
        let nestedFields := convertPDMLNested includeRaw nestedInit nested
        assocSet acc name (.obj nestedFields)
    if includeRaw ∧ pos ≠ "" ∧ size ≠ "" then
      let acc2 :=
        match goAtoiE pos with
        | .ok n => assocSet acc1 (name ++ "_pos") (.num n)
        | .error _ => acc1
      match goAtoiE size with
      | .ok n => assocSet acc2 (name ++ "_size") (.num n)
      | .error _ => acc2
    else acc1

/-- The nested-field loop of `convertPDMLField`: each nested field is
converted into a fresh map, whose entries are then merged (overwriting) into
the accumulating nested map. -/
def convertPDMLNested (includeRaw : Bool) (m : List (String × JValue)) :
    List PDMLField → List (String × JValue)
  | [] => m
  | nf :: rest =>
    let sub := convertPDMLField includeRaw [] nf
    convertPDMLNested includeRaw
      (sub.foldl (fun acc kv => assocSet acc kv.1 kv.2) m) rest

end

/-- Go `XMLParser.convertPDMLProto` (tshark xml parser lines 122-136): a layer
whose field map is built by folding `convertPDMLField` over the proto's
fields. -/
def convertPDMLProto (includeRaw : Bool) (name : String) (fields : List PDMLField) :
    Layer :=
  { Name := name,
    Fields := fields.foldl (fun acc f => convertPDMLField includeRaw acc f) [],
    Offsets := [], Pos := 0, Len := 0 }

/-! Section: Association-list lemmas shared by the layer proofs -/

theorem assocGet_append_right {α : Type} (m : List (String × α)) (k : String) (v : α)
    (h : assocGet m k = none) : assocGet (m ++ [(k, v)]) k = some v := by
  induction m with
  | nil => simp [assocGet]
  | cons kv rest ih =>
    obtain ⟨k1, v1⟩ := kv
    by_cases hk : k1 = k
    · simp [assocGet, hk] at h
    · simp [assocGet, hk] at h ⊢
      exact ih h

theorem assocGet_modify {α : Type} (m : List (String × α)) (k : String) (g : α → α) :
    assocGet (assocModify m k g) k = (assocGet m k).map g := by
  induction m with
  | nil => simp [assocGet, assocModify]
  | cons kv rest ih =>
    obtain ⟨k1, v1⟩ := kv
    by_cases hk : k1 = k
    · simp [assocGet, assocModify, hk]
    · simp [assocGet, assocModify, hk, ih]

theorem xmlAddField_existing (l : layers.XMLLayer) (f : layers.LayerField)
    (c : layers.LayerFieldsContainer) (h : assocGet l.AllFields f.Name = some c) :
    assocGet ((l.AddField f).AllFields) f.Name = some ⟨c.Fields ++ [f]⟩ := by
  unfold layers.XMLLayer.AddField
  rw [h]
  simp [assocGet_modify, h, layers.LayerFieldsContainer.AddField]

theorem xmlAddField_new (l : layers.XMLLayer) (f : layers.LayerField)
    (h : assocGet l.AllFields f.Name = none) :
    assocGet ((l.AddField f).AllFields) f.Name = some ⟨[f]⟩ := by
  unfold layers.XMLLayer.AddField
  rw [h]
  simpa using assocGet_append_right l.AllFields f.Name ⟨[f]⟩ h

theorem xmlAddFields_fold (fs : List layers.LayerField) (n : String) :
    ∀ (l : layers.XMLLayer) (c : layers.LayerFieldsContainer),
      assocGet l.AllFields n = some c → (∀ f ∈ fs, f.Name = n) →
      assocGet ((fs.foldl layers.XMLLayer.AddField l).AllFields) n =
        some ⟨c.Fields ++ fs⟩ := by
  induction fs with
  | nil =>
    intro l c h _
    simpa using h
  | cons f rest ih =>
    intro l c h hall
    have hf : f.Name = n := hall f (by simp)
    have h1 : assocGet ((l.AddField f).AllFields) n = some ⟨c.Fields ++ [f]⟩ := by
      rw [← hf] at h ⊢
      exact xmlAddField_existing l f c h
    have h2 := ih (l.AddField f) ⟨c.Fields ++ [f]⟩ h1
      (fun g hg => hall g (by simp [hg]))
    simpa using h2

/-! Section: Theorems for C3, C2, C9 -/

/-- C3 (counterexample): two same-named scalar `<field>` elements inside one
`<proto>` do not accumulate: the XML parser's plain map assignment keeps
only the last occurrence, so after conversion there is a single entry for
the name (value of the second field), not two. -/
theorem C3_counterexample :
    (convertPDMLProto false "tcp"
        [.mk "opt" "" "" "1" "" "" [], .mk "opt" "" "" "2" "" "" []]).Fields =
      [("opt", JValue.str "2")] ∧
    ((convertPDMLProto false "tcp"
        [.mk "opt" "" "" "1" "" "" [], .mk "opt" "" "" "2" "" "" []]).Fields.length = 2 →
      False) :=
  ⟨rfl, by decide⟩

/-- C3 (amended): accumulation of same-named fields in encounter order holds
for `XMLLayer.AddField` — adding a non-empty run of fields all named `n` to
a layer without an `n` entry yields one container holding exactly those
fields in order — but the XML parser itself (`convertPDMLField`) stores each
scalar field by plain map assignment, so of two same-named leaf fields only
the last survives. -/
theorem C3_addfield_accumulates_but_xml_conversion_overwrites :
    (∀ (l : layers.XMLLayer) (n : String) (fs : List layers.LayerField),
        fs ≠ [] → assocGet l.AllFields n = none → (∀ f ∈ fs, f.Name = n) →
        assocGet ((fs.foldl layers.XMLLayer.AddField l).AllFields) n = some ⟨fs⟩) ∧
    (∀ (pn nm s1 s2 : String), s1 ≠ "" → s2 ≠ "" →
        (convertPDMLProto false pn
            [.mk nm "" "" s1 "" "" [], .mk nm "" "" s2 "" "" []]).Fields =
          [(nm, JValue.str s2)]) := by
  constructor
  · intro l n fs hne h hall
    match fs with
    | [] => exact absurd rfl hne
    | f :: rest =>
      have hf : f.Name = n := hall f (by simp)
      have h1 : assocGet ((l.AddField f).AllFields) n = some ⟨[f]⟩ := by
        rw [← hf] at h ⊢
        exact xmlAddField_new l f h
      have h2 := xmlAddFields_fold rest n (l.AddField f) ⟨[f]⟩ h1
        (fun g hg => hall g (by simp [hg]))
      simpa using h2
  · intro pn nm s1 s2 h1 h2
    simp [convertPDMLProto, convertPDMLField, assocSet, h1, h2]

theorem C3_addfield_accumulates_witness :
    assocGet
      (([⟨"a", "", "1"⟩, ⟨"a", "", "2"⟩].foldl layers.XMLLayer.AddField
          ⟨"ip", false, []⟩).AllFields) "a" =
      some ⟨[⟨"a", "", "1"⟩, ⟨"a", "", "2"⟩]⟩ ∧
    (convertPDMLProto false "tcp"
        [.mk "flag" "" "" "x" "" "" [], .mk "flag" "" "" "y" "" "" []]).Fields =
      [("flag", JValue.str "y")] :=
  ⟨C3_addfield_accumulates_but_xml_conversion_overwrites.1
      ⟨"ip", false, []⟩ "a" [⟨"a", "", "1"⟩, ⟨"a", "", "2"⟩]
      (by decide) rfl (by decide),
   C3_addfield_accumulates_but_xml_conversion_overwrites.2
      "tcp" "flag" "x" "y" (by decide) (by decide)⟩

/-- C2 (code bug): field lookup on the XML layer variant is not
case-insensitive, although `"src"` and `"SRC"` agree up to letter case: on a
layer named `ip` holding a field stored under `ip.src`, `GetField "src"`
finds the container but `GetField "SRC"` returns `nil`, because the
"case-insensitive" scan compares sanitized names with `==`. -/
theorem C2_xml_getfield_not_case_insensitive :
    equalFold "src" "SRC" = true ∧
    layers.XMLLayer.GetField
      ⟨"ip", false, [("ip.src", ⟨[⟨"ip.src", "", "10.0.0.1"⟩]⟩)]⟩ "src" =
      some (.cont ⟨[⟨"ip.src", "", "10.0.0.1"⟩]⟩) ∧
    layers.XMLLayer.GetField
      ⟨"ip", false, [("ip.src", ⟨[⟨"ip.src", "", "10.0.0.1"⟩]⟩)]⟩ "SRC" = none :=
  ⟨by decide, rfl, rfl⟩

/-- The JSON layer variant, by contrast, does resolve names
case-insensitively: whenever some stored key sanitizes (prefix-stripped) to
the queried name up to letter case, `getInternalFieldByName` returns a
value. -/
theorem jsonLayer_internal_lookup_case_insensitive (l : layers.JSONLayer)
    (name : String)
    (h : ∃ kv ∈ l.Fields, equalFold (layers.sanitizeFieldName kv.1 l.FullName) name = true) :
    ∃ v, l.getInternalFieldByName name = some v := by
  unfold layers.JSONLayer.getInternalFieldByName
  rcases hd : assocGet l.Fields name with _ | v
  · rcases hp : assocGet l.Fields (l.FullName ++ "." ++ name) with _ | v
    · have hfind : (l.Fields.find?
          (fun kv => equalFold (layers.sanitizeFieldName kv.1 l.FullName) name)).isSome := by
        rw [List.find?_isSome]
        obtain ⟨kv, hkv, hfold⟩ := h
        exact ⟨kv, hkv, hfold⟩
      rcases hf : l.Fields.find?
          (fun kv => equalFold (layers.sanitizeFieldName kv.1 l.FullName) name) with _ | kv
      · rw [hf] at hfind; simp at hfind
      · exact ⟨kv.2, by simp [hf]⟩
    · exact ⟨v, by simp⟩
  · exact ⟨v, by simp⟩

theorem jsonLayer_internal_lookup_case_insensitive_witness :
    ∃ v, layers.JSONLayer.getInternalFieldByName
      ⟨"ip", "ip", [("ip.src", JValue.str "10.0.0.1")]⟩ "SRC" = some v :=
  jsonLayer_internal_lookup_case_insensitive
    ⟨"ip", "ip", [("ip.src", JValue.str "10.0.0.1")]⟩ "SRC"
    ⟨("ip.src", JValue.str "10.0.0.1"), by simp, by decide⟩

/-- C9: on an EK layer named `ip` whose dictionary holds `ip_src` (with no
key extending it by a further underscore segment and no literal `src` key),
`GetField "src"` resolves through the prefix-candidate enumeration to the
value stored under `ip_src`. -/
theorem C9_ek_prefix_candidate_lookup (d : List (String × JValue)) (v : JValue)
    (hdirect : assocGet d "src" = none)
    (hsrc : assocGet d "ip_src" = some v)
    (hv : v ≠ JValue.null)
    (hnosub : layers.EKLayer.fieldHasSubfields ⟨"ip", d⟩ "ip_src" = false) :
    layers.EKLayer.GetField ⟨"ip", d⟩ "src" = some (.val v) := by
  have hrep : goReplaceAll "src" "." "_" = "src" := rfl
  have hnest : layers.EKLayer.getNestedField ⟨"ip", d⟩ "ip" "src" = some (.val v) := by
    have hcat : ("ip" ++ "_" ++ "src" : String) = "ip_src" := rfl
    simp only [layers.EKLayer.getNestedField, layers.EKLayer.getFieldValue,
      hcat, hsrc, hnosub]
    cases v with
    | null => exact absurd rfl hv
    | bool b => rfl
    | str s => rfl
    | num n => rfl
    | arr xs => rfl
    | obj fs => rfl
  have hpre : layers.EKLayer.getPossibleLayerPrefixes ⟨"ip", d⟩ =
      ["ip", "ip_src", "ip_dst"] := rfl
  simp only [layers.EKLayer.GetField, hrep, hdirect, hpre, List.findSome?_cons, hnest]

theorem C9_ek_prefix_candidate_lookup_witness :
    layers.EKLayer.GetField
      ⟨"ip", [("ip_src", JValue.str "10.0.0.1"), ("ip_dst", JValue.str "10.0.0.2")]⟩
      "src" = some (.val (JValue.str "10.0.0.1")) :=
  C9_ek_prefix_candidate_lookup
    [("ip_src", JValue.str "10.0.0.1"), ("ip_dst", JValue.str "10.0.0.2")]
    (JValue.str "10.0.0.1") rfl rfl (by intro h; cases h) rfl


/-! Section: Theorems for C6 and C10 -/

/-- C6: `GetDefaultValue` resolves in strict precedence: `Show` when non-empty,
else `RawValue` when non-empty, else `Showname` when non-empty, else the empty
string — for every `LayerField` and every combination of populated/empty
`Show`/`RawValue`/`Showname`. -/
theorem C6_getDefaultValue_precedence (f : LayerField) :
    (f.Show ≠ "" → f.GetDefaultValue = f.Show) ∧
    (f.Show = "" → f.RawValue ≠ "" → f.GetDefaultValue = f.RawValue) ∧
    (f.Show = "" → f.RawValue = "" → f.Showname ≠ "" → f.GetDefaultValue = f.Showname) ∧
    (f.Show = "" → f.RawValue = "" → f.Showname = "" → f.GetDefaultValue = "") := by
  refine ⟨?_, ?_, ?_, ?_⟩ <;> intros <;> simp_all [LayerField.GetDefaultValue]

theorem C6_getDefaultValue_precedence_witness :
    LayerField.GetDefaultValue ⟨"n", "sn", "rv", "sh", false, "", "", ""⟩ = "sh" ∧
    LayerField.GetDefaultValue ⟨"n", "sn", "rv", "", false, "", "", ""⟩ = "rv" ∧
    LayerField.GetDefaultValue ⟨"n", "sn", "", "", false, "", "", ""⟩ = "sn" ∧
    LayerField.GetDefaultValue ⟨"n", "", "", "", false, "", "", ""⟩ = "" :=
  ⟨(C6_getDefaultValue_precedence _).1 (by decide),
   (C6_getDefaultValue_precedence _).2.1 rfl (by decide),
   (C6_getDefaultValue_precedence _).2.2.1 rfl rfl (by decide),
   (C6_getDefaultValue_precedence _).2.2.2 rfl rfl rfl⟩

/-- C10: every accessor on a `LayerFieldsContainer` holding zero fields is
total and non-panicking: `GetMainField` returns `nil`, `String` and
`GetDefaultValue` return the empty string, and `GetBinaryValue`, `GetIntValue`
and `GetHexValue` each return the error value "no fields in container". -/
theorem C10_empty_container_accessors (c : LayerFieldsContainer)
    (h : c.Fields = []) :
    c.GetMainField = none ∧
    c.toStr = "" ∧
    c.GetDefaultValue = "" ∧
    c.GetBinaryValue = .error "no fields in container" ∧
    c.GetIntValue = .error "no fields in container" ∧
    c.GetHexValue = .error "no fields in container" := by
  obtain ⟨fs⟩ := c
  cases h
  simp [LayerFieldsContainer.GetMainField, LayerFieldsContainer.toStr,
    LayerFieldsContainer.GetDefaultValue, LayerFieldsContainer.GetBinaryValue,
    LayerFieldsContainer.GetIntValue, LayerFieldsContainer.GetHexValue]

theorem C10_empty_container_accessors_witness :
    LayerFieldsContainer.GetMainField ⟨[]⟩ = none ∧
    LayerFieldsContainer.toStr ⟨[]⟩ = "" ∧
    LayerFieldsContainer.GetDefaultValue ⟨[]⟩ = "" ∧
    LayerFieldsContainer.GetBinaryValue ⟨[]⟩ = .error "no fields in container" ∧
    LayerFieldsContainer.GetIntValue ⟨[]⟩ = .error "no fields in container" ∧
    LayerFieldsContainer.GetHexValue ⟨[]⟩ = .error "no fields in container" :=
  C10_empty_container_accessors ⟨[]⟩ rfl

/-! Section: Theorems for C7, C4, C8 -/

/-- C7: `SessionKey.Normalized` is total — non-tcp/udp protocols pass
through unchanged — and idempotent: normalizing twice equals normalizing
once, for every `SessionKey`. -/
theorem C7_normalized_total_idempotent (k : SessionKey) :
    ((k.Protocol ≠ "tcp" ∧ k.Protocol ≠ "udp") → k.Normalized = k) ∧
    k.Normalized.Normalized = k.Normalized := by
  constructor
  · intro h
    simp [SessionKey.Normalized, h.1, h.2]
  · by_cases hp : k.Protocol = "tcp" ∨ k.Protocol = "udp"
    · by_cases h1 : k.SrcIP < k.DstIP
      · simp [SessionKey.Normalized, goCompare, hp, h1]
      · by_cases h2 : k.DstIP < k.SrcIP
        · simp [SessionKey.Normalized, goCompare, hp, h1, h2]
        · by_cases h3 : k.SrcPort < k.DstPort
          · simp [SessionKey.Normalized, goCompare, hp, h1, h2, h3]
          · by_cases h4 : k.DstPort < k.SrcPort
            · simp [SessionKey.Normalized, goCompare, hp, h1, h2, h3, h4]
            · simp [SessionKey.Normalized, goCompare, hp, h1, h2, h3, h4]
    · simp [SessionKey.Normalized, hp]

theorem C7_normalized_total_idempotent_witness :
    SessionKey.Normalized ⟨"icmp", "b", "a", "", ""⟩ = ⟨"icmp", "b", "a", "", ""⟩ ∧
    SessionKey.Normalized (SessionKey.Normalized ⟨"tcp", "b", "a", "9", "1"⟩) =
      SessionKey.Normalized ⟨"tcp", "b", "a", "9", "1"⟩ :=
  ⟨(C7_normalized_total_idempotent ⟨"icmp", "b", "a", "", ""⟩).1 (by decide),
   (C7_normalized_total_idempotent ⟨"tcp", "b", "a", "9", "1"⟩).2⟩

/-- C4 (counterexample): a TCP packet whose `tcp.flags` value contains RST
together with SYN does not drive the session to `closed`: from state
`established`, flags `"SYN, RST"` yield `syn_sent`, because the SYN branch
of the if/else chain fires before the RST branch. -/
theorem C4_counterexample :
    strContains "SYN, RST" "RST" = true ∧
    updateTCPState "established"
      ⟨"tcp", [("tcp.flags", JValue.str "SYN, RST")], [], 0, 0⟩ = "syn_sent" ∧
    ("syn_sent" : String) ≠ "closed" :=
  ⟨by decide, rfl, by decide⟩

/-- C4 (amended): a `tcp.flags` value containing RST sets the session state
to `closed` from any state, provided no SYN and no FIN is present in the
flags value and the ACK branch does not fire (no ACK, or the state is not
`syn_received`); SYN, established-ACK and FIN branches take precedence over
RST in the code's if/else chain. -/
theorem C4_rst_closes_amended (state f : String) (l : Layer)
    (hf : assocGet l.Fields "tcp.flags" = some (JValue.str f))
    (hRST : strContains f "RST" = true)
    (hSYN : strContains f "SYN" = false)
    (hFIN : strContains f "FIN" = false)
    (hACK : strContains f "ACK" = false ∨ state ≠ "syn_received") :
    updateTCPState state l = "closed" := by
  unfold updateTCPState
  rw [hf]
  rcases hACK with h | h
  · simp [goFormat, hSYN, hFIN, hRST, h]
  · simp [goFormat, hSYN, hFIN, hRST, h]

theorem C4_rst_closes_amended_witness :
    updateTCPState "established"
      ⟨"tcp", [("tcp.flags", JValue.str "RST")], [], 0, 0⟩ = "closed" :=
  C4_rst_closes_amended "established" "RST"
    ⟨"tcp", [("tcp.flags", JValue.str "RST")], [], 0, 0⟩
    rfl (by decide) (by decide) (by decide) (Or.inr (by decide))

/-- C8: `GetLayerRawBytes` and `GetFieldRawBytes` return `nil` whenever the
layer, raw buffer or offset record is missing, the start is negative, the
length is non-positive, or `start+length` exceeds the raw buffer's length;
otherwise they return exactly the sub-slice `rawBuffer[start : start+length]`,
whose extent always stays within the buffer. -/
theorem C8_raw_bytes_safe (p : Packet) (ln fn : String) :
    (p.GetLayer ln = none →
      p.GetLayerRawBytes ln = none ∧ p.GetFieldRawBytes ln fn = none) ∧
    (p.RawData = none →
      p.GetLayerRawBytes ln = none ∧ p.GetFieldRawBytes ln fn = none) ∧
    (∀ l raw, p.GetLayer ln = some l → p.RawData = some raw →
      ((l.Pos < 0 ∨ l.Len ≤ 0 ∨ (l.Pos + l.Len : Int) > (raw.length : Int)) →
        p.GetLayerRawBytes ln = none) ∧
      (0 ≤ l.Pos → 0 < l.Len → (l.Pos + l.Len : Int) ≤ (raw.length : Int) →
        p.GetLayerRawBytes ln = some ((raw.drop l.Pos.toNat).take l.Len.toNat) ∧
        l.Pos.toNat + l.Len.toNat ≤ raw.length) ∧
      (l.GetFieldOffset fn = none → p.GetFieldRawBytes ln fn = none) ∧
      (∀ fo, l.GetFieldOffset fn = some fo →
        ((fo.Start < 0 ∨ fo.Length ≤ 0 ∨
            (fo.Start + fo.Length : Int) > (raw.length : Int)) →
          p.GetFieldRawBytes ln fn = none) ∧
        (0 ≤ fo.Start → 0 < fo.Length →
            (fo.Start + fo.Length : Int) ≤ (raw.length : Int) →
          p.GetFieldRawBytes ln fn =
            some ((raw.drop fo.Start.toNat).take fo.Length.toNat) ∧
          fo.Start.toNat + fo.Length.toNat ≤ raw.length))) := by
  refine ⟨?_, ?_, ?_⟩
  · intro h
    exact ⟨by simp [Packet.GetLayerRawBytes, h], by simp [Packet.GetFieldRawBytes, h]⟩
  · intro h
    refine ⟨?_, ?_⟩ <;>
    · rcases hgl : p.GetLayer ln with _ | l <;>
        simp [Packet.GetLayerRawBytes, Packet.GetFieldRawBytes, hgl, h]
  · intro l raw hl hr
    refine ⟨?_, ?_, ?_, ?_⟩
    · intro hbad
      rcases hbad with h | h | h
      · simp [Packet.GetLayerRawBytes, hl, hr, h]
      · simp [Packet.GetLayerRawBytes, hl, hr, h]
      · by_cases h0 : l.Pos < 0 ∨ l.Len ≤ 0
        · simp [Packet.GetLayerRawBytes, hl, hr, h0]
        · simp [Packet.GetLayerRawBytes, hl, hr, h0, h]
    · intro hpos hlen hbound
      have h0 : ¬(l.Pos < 0 ∨ l.Len ≤ 0) := by omega
      have h1 : ¬((l.Pos + l.Len : Int) > (raw.length : Int)) := by omega
      exact ⟨by simp [Packet.GetLayerRawBytes, hl, hr, h0, h1], by omega⟩
    · intro h
      simp [Packet.GetFieldRawBytes, hl, hr, h]
    · intro fo hfo
      constructor
      · intro hbad
        rcases hbad with h | h | h
        · simp [Packet.GetFieldRawBytes, hl, hr, hfo, h]
        · simp [Packet.GetFieldRawBytes, hl, hr, hfo, h]
        · by_cases h0 : fo.Start < 0 ∨ fo.Length ≤ 0
          · simp [Packet.GetFieldRawBytes, hl, hr, hfo, h0]
          · simp [Packet.GetFieldRawBytes, hl, hr, hfo, h0, h]
      · intro hpos hlen hbound
        have h0 : ¬(fo.Start < 0 ∨ fo.Length ≤ 0) := by omega
        have h1 : ¬((fo.Start + fo.Length : Int) > (raw.length : Int)) := by omega
        exact ⟨by simp [Packet.GetFieldRawBytes, hl, hr, hfo, h0, h1], by omega⟩

theorem C8_raw_bytes_safe_witness :
    Packet.GetLayerRawBytes
      ⟨"", "", "", "", "", some [10, 20, 30],
        [⟨"ip", [], [("f", ⟨0, 2, "f", ""⟩)], 1, 2⟩]⟩ "ip" = some [20, 30] ∧
    Packet.GetFieldRawBytes
      ⟨"", "", "", "", "", some [10, 20, 30],
        [⟨"ip", [], [("f", ⟨0, 2, "f", ""⟩)], 1, 2⟩]⟩ "ip" "f" = some [10, 20] ∧
    Packet.GetLayerRawBytes
      ⟨"", "", "", "", "", some [10], [⟨"ip", [], [], 0, 2⟩]⟩ "ip" = none := by
  refine ⟨?_, ?_, ?_⟩
  · exact (((C8_raw_bytes_safe
        ⟨"", "", "", "", "", some [10, 20, 30],
          [⟨"ip", [], [("f", ⟨0, 2, "f", ""⟩)], 1, 2⟩]⟩ "ip" "f").2.2
        ⟨"ip", [], [("f", ⟨0, 2, "f", ""⟩)], 1, 2⟩ [10, 20, 30] rfl rfl).2.1
        (by decide) (by decide) (by decide)).1
  · exact ((((C8_raw_bytes_safe
        ⟨"", "", "", "", "", some [10, 20, 30],
          [⟨"ip", [], [("f", ⟨0, 2, "f", ""⟩)], 1, 2⟩]⟩ "ip" "f").2.2
        ⟨"ip", [], [("f", ⟨0, 2, "f", ""⟩)], 1, 2⟩ [10, 20, 30] rfl rfl).2.2.2
        ⟨0, 2, "f", ""⟩ rfl).2 (by decide) (by decide) (by decide)).1
  · exact ((C8_raw_bytes_safe
        ⟨"", "", "", "", "", some [10], [⟨"ip", [], [], 0, 2⟩]⟩ "ip" "f").2.2
        ⟨"ip", [], [], 0, 2⟩ [10] rfl rfl).1 (by decide)

/-! Section: Theorems for C1 and C5 -/

/-- C1 (code bug): when the frame blob carries a non-empty `frame.offset`
list, `UnmarshalJSON` returns right after appending the frame layer, so the
other layer names are never decoded: with layers `frame` (with offsets) and
`ip`, the resulting layer list is just `["frame"]`; removing the offsets
from the very same input yields `["frame", "ip"]`. -/
theorem C1_frame_offset_drops_other_layers :
    (unmarshalPacketLayers
        [("frame", .obj [("frame.offset",
            .arr [.obj [("pos", .str "0"), ("size", .str "2"),
                        ("showname", .str "a")]])]),
         ("ip", .obj [])]).map (fun p => p.Layers.map Layer.Name) =
      some ["frame"] ∧
    (unmarshalPacketLayers
        [("frame", .obj []), ("ip", .obj [])]).map
          (fun p => p.Layers.map Layer.Name) =
      some ["frame", "ip"] :=
  ⟨rfl, rfl⟩

/-- C5 (code bug): the per-field offset loop stores every `frame.offset`
element under the constant key `"frame.offset"`, so later elements overwrite
earlier ones: with entries shown as `a` (pos 0, size 2) and `b` (pos 2,
size 3), the frame layer's offset table has a single entry holding the last
element's pos/size, and `GetFieldOffset` finds nothing under the individual
field names. -/
theorem C5_offset_table_constant_key :
    ((unmarshalPacketLayers
        [("frame", .obj [("frame.offset",
            .arr [.obj [("pos", .str "0"), ("size", .str "2"),
                        ("showname", .str "a")],
                  .obj [("pos", .str "2"), ("size", .str "3"),
                        ("showname", .str "b")]])])]).bind
      (fun p => p.GetLayer "frame")).map (fun l => l.Offsets.map Prod.fst) =
        some ["frame.offset"] ∧
    ((unmarshalPacketLayers
        [("frame", .obj [("frame.offset",
            .arr [.obj [("pos", .str "0"), ("size", .str "2"),
                        ("showname", .str "a")],
                  .obj [("pos", .str "2"), ("size", .str "3"),
                        ("showname", .str "b")]])])]).bind
      (fun p => p.GetLayer "frame")).bind (fun l => l.GetFieldOffset "a") = none ∧
    ((unmarshalPacketLayers
        [("frame", .obj [("frame.offset",
            .arr [.obj [("pos", .str "0"), ("size", .str "2"),
                        ("showname", .str "a")],
                  .obj [("pos", .str "2"), ("size", .str "3"),
                        ("showname", .str "b")]])])]).bind
      (fun p => p.GetLayer "frame")).bind (fun l => l.GetFieldOffset "b") = none ∧
    ((unmarshalPacketLayers
        [("frame", .obj [("frame.offset",
            .arr [.obj [("pos", .str "0"), ("size", .str "2"),
                        ("showname", .str "a")],
                  .obj [("pos", .str "2"), ("size", .str "3"),
                        ("showname", .str "b")]])])]).bind
      (fun p => p.GetLayer "frame")).bind (fun l => l.GetFieldOffset "frame.offset") =
        some ⟨2, 3, "frame.offset", "b"⟩ :=
  ⟨rfl, rfl, rfl, rfl⟩

